import Mathlib

/-!
Verification of the day-6 lanternfish simulation engine
(`src/day6/src/main.rs`): the entity step transition, the per-entity and
per-group simulations, the partitioner `compute_subvec_range`, the input
loader `load_input_data`, and the aggregation/join phase of `main`.

Entities (`Lanternfish`) carry a single `u8` timer; we embed timers as
`Nat` (every operation in the source stays within `u8` range for the
values it produces: timers are only ever decremented, or set to 6 or 8).
-/

namespace Day6

/-- Reset value of the spawn timer (`Lanternfish::DEFAULT_SPAWN_TIMER`). -/
def DEFAULT_SPAWN_TIMER : Nat := 6

/-- Timer of a freshly spawned entity (`Lanternfish::FIRST_SPAWN_TIMER`). -/
def FIRST_SPAWN_TIMER : Nat := 8

/-- `Lanternfish::simulate_day`: the Rust method mutates the receiver and
returns an `Option<Lanternfish>`.  We embed it as a function from the old
timer to the pair (new timer, optionally spawned timer). -/
def simulate_day (t : Nat) : Nat × Option Nat :=
  if t = 0 then (DEFAULT_SPAWN_TIMER, some FIRST_SPAWN_TIMER)
  else (t - 1, none)

/-- One pass of `spawns.iter_mut().map(|s| s.simulate_day())` over the
current list: returns the list of updated timers (in place, same order)
and the list of spawns collected in iteration order (the
`filter(is_some).map(unwrap).collect()` of the source). -/
def stepAll : List Nat → List Nat × List Nat
  | [] => ([], [])
  | t :: ts =>
    let p := simulate_day t
    let rest := stepAll ts
    (p.1 :: rest.1, p.2.toList ++ rest.2)

/-- One iteration of the `for _ in 0..sim_time` loop body of
`simulate_spawning`: step every entity currently present, then
`spawns.append(&mut new_spawns)`. -/
def dayStep (l : List Nat) : List Nat :=
  let p := stepAll l
  p.1 ++ p.2

/-- The `for _ in 0..sim_time` loop of `simulate_spawning`. -/
def iterDays : Nat → List Nat → List Nat
  | 0, l => l
  | n + 1, l => iterDays n (dayStep l)

/-- `Lanternfish::simulate_spawning`: start from `vec![self.clone()]`, run
`sim_time` day steps, return the final length. -/
def simulate_spawning (t : Nat) (sim_time : Nat) : Nat :=
  (iterDays sim_time [t]).length

/-- `Lanternfish::simulate_spawning_group` with no progress bars: the
`count += fish.simulate_spawning(sim_time)` accumulation loop. -/
def simulate_spawning_group (lanternfish : List Nat) (sim_time : Nat) : Nat :=
  lanternfish.foldl (fun count t => count + simulate_spawning t sim_time) 0

/-- `compute_subvec_range`: returns the half-open range as a
(start, end) pair of indices. -/
def compute_subvec_range (vec_size subvec_size iteration max_iter : Nat) :
    Nat × Nat :=
  let subvec_start := iteration * subvec_size
  let subvec_end :=
    if iteration < max_iter - 1 then subvec_start + subvec_size
    else vec_size
  (subvec_start, subvec_end)

/-- Membership in a half-open `(start, end)` range (Rust `Range<usize>`). -/
def inRange (r : Nat × Nat) (j : Nat) : Prop := r.1 ≤ j ∧ j < r.2

instance (r : Nat × Nat) (j : Nat) : Decidable (inRange r j) := by
  unfold inRange; infer_instance

/-- Number of indices in a half-open `(start, end)` range. -/
def rangeSize (r : Nat × Nat) : Nat := r.2 - r.1

/-! ### The spec's reference recursion for single-entity simulation

§4.1 of the specification defines single-entity simulation by its own
recursion; for the refinement claim we state that definition separately,
following the spec's words, and compare it with `simulate_spawning`
embedded from the source. -/

/-- One step of the specification's reference recursion: apply the
transition to every entity in the sequence as it existed before the step
began, then append all spawns produced this step at the end. -/
def spec_step (s : List Nat) : List Nat :=
  s.map (fun t => (simulate_day t).1) ++ s.filterMap (fun t => (simulate_day t).2)

/-- The specification's single-entity simulation: start a sequence holding
only the originating entity, run `D` reference steps, report the length. -/
def spec_simulate (t : Nat) (D : Nat) : Nat :=
  (spec_step^[D] [t]).length

/-! ### Timer-bucket abstraction

To evaluate the simulation at large horizons inside the kernel we use a
verified abstraction: a 9-entry tally of how many entities carry each
timer value `0..8`.  `bucketStep` is proved to commute with `dayStep`
through `toBuckets`, so concrete population sizes can be computed on the
buckets. -/

/-- Tally of a population by timer value `0..8`. -/
def toBuckets (l : List Nat) : List Nat :=
  [l.count 0, l.count 1, l.count 2, l.count 3, l.count 4,
   l.count 5, l.count 6, l.count 7, l.count 8]

/-- One day on the bucket tally: timers shift down, the `c0` entities that
hit the boundary reset to 6 and spawn `c0` new timer-8 entities. -/
def bucketStep : List Nat → List Nat
  | [c0, c1, c2, c3, c4, c5, c6, c7, c8] =>
      [c1, c2, c3, c4, c5, c6, c0 + c7, c8, c0]
  | l => l

/-- Iterated bucket days, matching the shape of `iterDays`. -/
def bucketIter : Nat → List Nat → List Nat
  | 0, b => b
  | n + 1, b => bucketIter n (bucketStep b)

/-! ### Input loading (`load_input_data`)

The Rust loader splits the input string on `','` and keeps every token
that parses as a `u8`.  We embed strings as lists of characters, the
split as `splitTokens`, and Rust's `u8::from_str` as `parseU8`. -/

/-- Splitting on `','` (Rust `str::split(",")`): always yields at least
one (possibly empty) token, and one extra token per comma. -/
def splitTokens : List Char → List (List Char)
  | [] => [[]]
  | c :: cs =>
    if c = ',' then [] :: splitTokens cs
    else
      match splitTokens cs with
      | [] => [[c]]
      | t :: ts => (c :: t) :: ts

/-- Digit-accumulation loop of Rust's `u8::from_str`: fails on a non-digit
character or when the accumulated value leaves `u8` range. -/
def parseU8Digits (acc : Nat) : List Char → Option Nat
  | [] => some acc
  | c :: cs =>
    if c.isDigit then
      let v := acc * 10 + (c.toNat - 48)
      if v ≤ 255 then parseU8Digits v cs else none
    else none

/-- Rust's `val.parse::<u8>()` as used by `load_input_data`: an optional
leading `'+'` then one or more digits, value at most 255; the empty
string, a `'-'` sign (always out of range for an unsigned type), or any
other character fails. -/
def parseU8 (s : List Char) : Option Nat :=
  match s with
  | [] => none
  | '+' :: rest => if rest.isEmpty then none else parseU8Digits 0 rest
  | '-' :: _ => none
  | l => parseU8Digits 0 l

/-- `load_input_data`: split on commas, keep the tokens that parse as
`u8` (`filter_map(|val| val.parse::<u8>().ok())`), one entity per kept
token. -/
def load_input_data (input : List Char) : List Nat :=
  (splitTokens input).filterMap parseU8

/-! ### Aggregation and join phase of `main`

`main` seeds `fish_counts` with a zero, performs exactly one
`count_rx.recv().unwrap_or(0)` per spawned worker, joins every child with
`.expect("Child thread panicked")`, and only then prints the sum.  We
embed the receive outcomes as a list of `Option Nat` (one entry per
worker, `none` = failed receive) and the join outcomes as a list of
`Bool` (one entry per worker, `false` = abnormal termination). -/

/-- `count_rx.recv().unwrap_or(0)` for one worker. -/
def recvOrZero (r : Option Nat) : Nat := r.getD 0

/-- The `fish_counts` vector after the receive loop: the initial zero
seed followed by one received-or-zero value per worker. -/
def fishCounts (received : List (Option Nat)) : List Nat :=
  0 :: received.map recvOrZero

/-- The reported total: `fish_counts.iter().sum()`. -/
def aggregatorTotal (received : List (Option Nat)) : Nat :=
  (fishCounts received).sum

/-- The join loop: `child.join().expect("Child thread panicked")` for each
spawned worker in order; the first abnormal termination aborts. -/
def joinAll : List Bool → Except String Unit
  | [] => .ok ()
  | ok :: rest => if ok then joinAll rest else .error "Child thread panicked"

/-- The tail of `main` after the receive loop: join every child, and only
on success reach the `println!` reporting the total. -/
def reportTotal (joins : List Bool) (received : List (Option Nat)) :
    Except String Nat :=
  match joinAll joins with
  | .ok _ => .ok (aggregatorTotal received)
  | .error e => .error e

/-- Whether an `Except` computation completed normally. -/
def exceptOk : Except String Nat → Bool
  | .ok _ => true
  | .error _ => false

/-! ## Lemmas about the day step -/

theorem stepAll_eq (l : List Nat) :
    stepAll l = (l.map (fun t => (simulate_day t).1),
                 l.filterMap (fun t => (simulate_day t).2)) := by
  induction l with
  | nil => rfl
  | cons t ts ih =>
    simp only [stepAll, ih, List.map_cons, List.filterMap_cons]
    cases hs : (simulate_day t).2 <;> simp [hs]

theorem dayStep_eq_spec_step (l : List Nat) : dayStep l = spec_step l := by
  simp [dayStep, spec_step, stepAll_eq]

theorem count_map_updated (l : List Nat) (v : Nat) :
    (l.map (fun t => (simulate_day t).1)).count v =
      if v = 6 then l.count 0 + l.count 7 else l.count (v + 1) := by
  induction l with
  | nil => simp
  | cons t ts ih =>
    rw [List.map_cons, List.count_cons, ih]
    by_cases h0 : t = 0
    · subst h0
      simp only [simulate_day, reduceIte, DEFAULT_SPAWN_TIMER]
      by_cases h6 : v = 6 <;>
        simp [List.count_cons, h6, beq_iff_eq] <;> omega
    · simp only [simulate_day, h0, reduceIte]
      by_cases h6 : v = 6 <;>
        simp [List.count_cons, h6, beq_iff_eq, h0] <;> split_ifs <;> omega

theorem count_filterMap_spawn (l : List Nat) (v : Nat) :
    (l.filterMap (fun t => (simulate_day t).2)).count v =
      if v = 8 then l.count 0 else 0 := by
  induction l with
  | nil => simp
  | cons t ts ih =>
    rw [List.filterMap_cons]
    by_cases h0 : t = 0
    · subst h0
      have hs : (simulate_day 0).2 = some 8 := rfl
      rw [hs, List.count_cons, ih]
      by_cases h8 : v = 8 <;>
        simp [List.count_cons, h8, beq_iff_eq] <;> omega
    · have hs : (simulate_day t).2 = none := by simp [simulate_day, h0]
      rw [hs, ih]
      by_cases h8 : v = 8 <;>
        simp [List.count_cons, h8, beq_iff_eq, h0]

theorem dayStep_count (l : List Nat) (v : Nat) :
    (dayStep l).count v =
      (if v = 6 then l.count 0 + l.count 7 else l.count (v + 1))
      + (if v = 8 then l.count 0 else 0) := by
  rw [dayStep_eq_spec_step, spec_step, List.count_append,
    count_map_updated, count_filterMap_spawn]

theorem dayStep_bounded (l : List Nat) (h : ∀ t ∈ l, t ≤ 8) :
    ∀ t ∈ dayStep l, t ≤ 8 := by
  rw [dayStep_eq_spec_step]
  intro t ht
  rcases List.mem_append.mp ht with hm | hm
  · obtain ⟨s, hs, hst⟩ := List.mem_map.mp hm
    by_cases h0 : s = 0
    · simp only [simulate_day, h0, reduceIte, DEFAULT_SPAWN_TIMER] at hst
      omega
    · simp only [simulate_day, h0, reduceIte] at hst
      have := h s hs
      omega
  · obtain ⟨s, hs, hst⟩ := List.mem_filterMap.mp hm
    by_cases h0 : s = 0
    · simp only [simulate_day, h0, reduceIte, FIRST_SPAWN_TIMER,
        Option.some.injEq] at hst
      omega
    · simp [simulate_day, h0] at hst

theorem length_toBuckets_sum (l : List Nat) (h : ∀ t ∈ l, t ≤ 8) :
    l.length = (toBuckets l).sum := by
  induction l with
  | nil => simp [toBuckets]
  | cons t ts ih =>
    have ht : t ≤ 8 := h t (by simp)
    have ih' := ih (fun x hx => h x (by simp [hx]))
    simp only [toBuckets, List.sum_cons, List.sum_nil, List.length_cons] at ih' ⊢
    interval_cases t <;> simp [List.count_cons] <;> omega

theorem toBuckets_dayStep (l : List Nat) (h : ∀ t ∈ l, t ≤ 8) :
    toBuckets (dayStep l) = bucketStep (toBuckets l) := by
  have h9 : l.count 9 = 0 :=
    List.count_eq_zero_of_not_mem (fun hm => by have := h 9 hm; omega)
  simp [toBuckets, bucketStep, dayStep_count, h9]

theorem iterDays_buckets (d : Nat) (l : List Nat) (h : ∀ t ∈ l, t ≤ 8) :
    toBuckets (iterDays d l) = bucketIter d (toBuckets l)
      ∧ (∀ t ∈ iterDays d l, t ≤ 8) := by
  induction d generalizing l with
  | zero => exact ⟨rfl, h⟩
  | succ n ih =>
    have hb := dayStep_bounded l h
    have hrec := ih (dayStep l) hb
    refine ⟨?_, hrec.2⟩
    show toBuckets (iterDays n (dayStep l)) = bucketIter n (bucketStep (toBuckets l))
    rw [hrec.1, toBuckets_dayStep l h]

theorem simulate_spawning_buckets (t : Nat) (ht : t ≤ 8) (d : Nat) :
    simulate_spawning t d = (bucketIter d (toBuckets [t])).sum := by
  have h : ∀ x ∈ [t], x ≤ 8 := by simpa using ht
  have hiter := iterDays_buckets d [t] h
  rw [simulate_spawning, length_toBuckets_sum _ hiter.2, hiter.1]

theorem group_foldl (l : List Nat) (d : Nat) :
    ∀ acc : Nat, l.foldl (fun count t => count + simulate_spawning t d) acc
      = acc + (l.map (fun t => simulate_spawning t d)).sum := by
  induction l with
  | nil => simp
  | cons t ts ih =>
    intro acc
    rw [List.foldl_cons, ih, List.map_cons, List.sum_cons]
    omega

theorem group_eq_sum_map (l : List Nat) (d : Nat) :
    simulate_spawning_group l d
      = (l.map (fun t => simulate_spawning t d)).sum := by
  rw [simulate_spawning_group, group_foldl, Nat.zero_add]

/-! ## Lemmas about the partitioner -/

theorem csr_start (N b i W : Nat) :
    (compute_subvec_range N b i W).1 = i * b := rfl

theorem csr_end_mid (N b : Nat) {i W : Nat} (h : i < W - 1) :
    (compute_subvec_range N b i W).2 = i * b + b := by
  simp [compute_subvec_range, h]

theorem csr_end_last (N b : Nat) {i W : Nat} (h : ¬ i < W - 1) :
    (compute_subvec_range N b i W).2 = N := by
  simp [compute_subvec_range, h]

theorem csr_end_le (N W : Nat) {i : Nat} (hi : i < W) :
    (compute_subvec_range N (N / W) i W).2 ≤ N := by
  by_cases h : i < W - 1
  · rw [csr_end_mid N _ h]
    have h1 : i * (N / W) + N / W = (i + 1) * (N / W) := by ring
    have h2 : (i + 1) * (N / W) ≤ W * (N / W) :=
      Nat.mul_le_mul_right _ (by omega)
    have h3 : W * (N / W) ≤ N := by
      rw [Nat.mul_comm]; exact Nat.div_mul_le_self N W
    omega
  · rw [csr_end_last N _ h]

/-! ## Claim theorems -/

/-- C1: for every partition of originating entities and every step horizon,
`simulate_spawning_group` (with no progress bars) returns the sum, over the
originating entities simulated in total isolation, of that entity's
terminal population size after the horizon; in particular the population
with timers `{3,4,3,1,2}` yields 26 at horizon 18 and 5934 at horizon 80. -/
theorem simulate_spawning_group_correct :
    (∀ (lanternfish : List Nat) (D : Nat),
        simulate_spawning_group lanternfish D
          = (lanternfish.map (fun t => simulate_spawning t D)).sum) ∧
    simulate_spawning_group [3, 4, 3, 1, 2] 18 = 26 ∧
    simulate_spawning_group [3, 4, 3, 1, 2] 80 = 5934 := by
  have h1 := simulate_spawning_buckets 1 (by norm_num)
  have h2 := simulate_spawning_buckets 2 (by norm_num)
  have h3 := simulate_spawning_buckets 3 (by norm_num)
  have h4 := simulate_spawning_buckets 4 (by norm_num)
  refine ⟨group_eq_sum_map, ?_, ?_⟩ <;>
    · rw [group_eq_sum_map]
      simp only [List.map_cons, List.map_nil, List.sum_cons, List.sum_nil,
        h1, h2, h3, h4]
      decide

/-- C2: for every entity with timer `t ≤ 8`, `simulate_day` is total and
deterministic: at `t = 0` it resets the timer to 6 and spawns exactly one
entity with timer 8; at `t > 0` it decrements the timer and spawns
nothing; the updated timer and any spawned timer stay in `[0, 8]`. -/
theorem simulate_day_correct (t : Nat) (h : t ≤ 8) :
    (t = 0 → simulate_day t = (6, some 8)) ∧
    (0 < t → simulate_day t = (t - 1, none)) ∧
    (simulate_day t).1 ≤ 8 ∧ (simulate_day t).2.getD 8 ≤ 8 := by
  by_cases h0 : t = 0 <;>
    simp [simulate_day, h0, DEFAULT_SPAWN_TIMER, FIRST_SPAWN_TIMER] <;>
    omega

/-- Witness for C2 at the concrete timer 0. -/
theorem simulate_day_correct_witness :
    ((0 : Nat) ≤ 8) ∧
    (((0 : Nat) = 0 → simulate_day 0 = (6, some 8)) ∧
     (0 < (0 : Nat) → simulate_day 0 = (0 - 1, none)) ∧
     (simulate_day 0).1 ≤ 8 ∧ (simulate_day 0).2.getD 8 ≤ 8) :=
  ⟨by decide, simulate_day_correct 0 (by decide)⟩

/-- C3: for every entity and horizon, `simulate_spawning` equals the
specification's reference recursion: keep a sequence starting with that
entity alone, step exactly the entities present before each step began,
append the step's spawns in order at the end, and return the final
length. -/
theorem simulate_spawning_refines_spec (t D : Nat) :
    simulate_spawning t D = spec_simulate t D := by
  have key : ∀ d l, iterDays d l = spec_step^[d] l := by
    intro d
    induction d with
    | zero => intro l; rfl
    | succ n ih =>
      intro l
      rw [iterDays, ih, dayStep_eq_spec_step, Function.iterate_succ_apply]
  rw [simulate_spawning, spec_simulate, key]

/-- C4: for every population size `N` and worker count `W ≥ 1`, the `W`
ranges produced by `compute_subvec_range` with `subvec_size = N / W` (for
iterations `0..W` with `max_iter = W`) are pairwise disjoint and their
union is exactly `[0, N)`: no index of the initial population is dropped
or duplicated. -/
theorem partition_disjoint_cover (N W : Nat) (hW : 1 ≤ W) :
    (∀ i₁ i₂ j, i₁ < W → i₂ < W → i₁ ≠ i₂ →
      inRange (compute_subvec_range N (N / W) i₁ W) j →
      ¬ inRange (compute_subvec_range N (N / W) i₂ W) j) ∧
    (∀ j, j < N ↔
      ∃ i, i < W ∧ inRange (compute_subvec_range N (N / W) i W) j) := by
  have endLe : ∀ i₁ i₂ : Nat, i₁ < i₂ → i₂ < W →
      (compute_subvec_range N (N / W) i₁ W).2
        ≤ (compute_subvec_range N (N / W) i₂ W).1 := by
    intro i₁ i₂ h12 h2W
    have h1 : i₁ < W - 1 := by omega
    rw [csr_end_mid N _ h1, csr_start]
    have : i₁ * (N / W) + N / W = (i₁ + 1) * (N / W) := by ring
    rw [this]
    exact Nat.mul_le_mul_right _ (by omega)
  constructor
  · intro i₁ i₂ j h1 h2 hne hin1 hin2
    obtain ⟨ha1, hb1⟩ := hin1
    obtain ⟨ha2, hb2⟩ := hin2
    rcases Nat.lt_or_ge i₁ i₂ with hlt | hge
    · have := endLe i₁ i₂ hlt h2
      omega
    · have hlt : i₂ < i₁ := by omega
      have := endLe i₂ i₁ hlt h1
      omega
  · intro j
    constructor
    · intro hjN
      by_cases hlast : (W - 1) * (N / W) ≤ j
      · refine ⟨W - 1, by omega, ?_, ?_⟩
        · rw [csr_start]; exact hlast
        · rw [csr_end_last N _ (by omega)]; exact hjN
      · push_neg at hlast
        have hb0 : 0 < N / W := by
          rcases Nat.eq_zero_or_pos (N / W) with h | h
          · rw [h, Nat.mul_zero] at hlast; omega
          · exact h
        have hi_lt : j / (N / W) < W - 1 :=
          (Nat.div_lt_iff_lt_mul hb0).mpr hlast
        refine ⟨j / (N / W), by omega, ?_, ?_⟩
        · rw [csr_start]; exact Nat.div_mul_le_self j (N / W)
        · rw [csr_end_mid N _ hi_lt]
          calc j = (N / W) * (j / (N / W)) + j % (N / W) :=
                (Nat.div_add_mod j (N / W)).symm
            _ < (N / W) * (j / (N / W)) + (N / W) :=
                Nat.add_lt_add_left (Nat.mod_lt j hb0) _
            _ = j / (N / W) * (N / W) + N / W := by rw [Nat.mul_comm]
    · rintro ⟨i, hiW, hin⟩
      have := csr_end_le N W hiW
      exact Nat.lt_of_lt_of_le hin.2 this

/-- Witness for C4 at the concrete population size 9 and worker count 5. -/
theorem partition_disjoint_cover_witness :
    (1 ≤ 5) ∧
    ((3 : Nat) < 9 ↔
      ∃ i, i < 5 ∧ inRange (compute_subvec_range 9 (9 / 5) i 5) 3) :=
  ⟨by decide, (partition_disjoint_cover 9 5 (by decide)).2 3⟩

/-- C5 counterexample: with `base_size = N / W` truncating, `N = 9` and
`W = 5` give `base_size = 1` and partition sizes `[1,1,1,1,5]`, not the
claimed `[2,2,2,2,1]` (the repository's test obtains `[2,2,2,2,1]` only by
passing `subvec_size = 2` directly, which is not `9 / 5`). -/
theorem partition_sizes_example_counterexample :
    (List.range 5).map
        (fun i => rangeSize (compute_subvec_range 9 (9 / 5) i 5))
      = [1, 1, 1, 1, 5] ∧
    ([1, 1, 1, 1, 5] : List Nat) ≠ [2, 2, 2, 2, 1] := by decide

/-- C5 amended: for every `N` and `W ≥ 1`, with `base_size = N / W`
(truncating), worker `i < W` gets the range starting at `i * base_size`
and ending at `(i + 1) * base_size`, except the last worker whose range
ends at `N`; for `N = 9` and `W = 5` the resulting partition sizes are
`[1, 1, 1, 1, 5]` in order, while the sizes `[2, 2, 2, 2, 1]` arise only
when `subvec_size = 2` is supplied directly (as in the repository's test),
not from `base_size = 9 / 5`. -/
theorem partition_range_policy (N W i : Nat) (hW : 1 ≤ W) (hi : i < W) :
    compute_subvec_range N (N / W) i W
      = (i * (N / W), if i < W - 1 then (i + 1) * (N / W) else N) ∧
    (List.range 5).map
        (fun k => rangeSize (compute_subvec_range 9 2 k 5))
      = [2, 2, 2, 2, 1] ∧
    (List.range 5).map
        (fun k => rangeSize (compute_subvec_range 9 (9 / 5) k 5))
      = [1, 1, 1, 1, 5] := by
  refine ⟨?_, by decide, by decide⟩
  by_cases h : i < W - 1
  · rw [Prod.ext_iff, csr_start, csr_end_mid N _ h, if_pos h]
    constructor
    · rfl
    · show i * (N / W) + N / W = (i + 1) * (N / W)
      ring
  · rw [Prod.ext_iff, csr_start, csr_end_last N _ h, if_neg h]
    exact ⟨rfl, rfl⟩

/-- Witness for C5 (amended) at `N = 9`, `W = 5`, worker 2. -/
theorem partition_range_policy_witness :
    ((1 ≤ 5) ∧ (2 < 5)) ∧
    (compute_subvec_range 9 (9 / 5) 2 5
        = (2 * (9 / 5), if 2 < 5 - 1 then (2 + 1) * (9 / 5) else 9) ∧
      (List.range 5).map
          (fun k => rangeSize (compute_subvec_range 9 2 k 5))
        = [2, 2, 2, 2, 1] ∧
      (List.range 5).map
          (fun k => rangeSize (compute_subvec_range 9 (9 / 5) k 5))
        = [1, 1, 1, 1, 5]) :=
  ⟨⟨by decide, by decide⟩, partition_range_policy 9 5 2 (by decide) (by decide)⟩

/-- C6 counterexample: for `N = 3 < W = 5` the empty ranges go to the
partitions with the LOWEST worker indices, while the partition with the
highest index (4) receives a non-empty range: the claim that the empty
ranges fall on the trailing (highest-index) partitions is false. -/
theorem trailing_empty_counterexample :
    (3 : Nat) < 5 ∧
    rangeSize (compute_subvec_range 3 (3 / 5) 0 5) = 0 ∧
    rangeSize (compute_subvec_range 3 (3 / 5) 4 5) ≠ 0 := by decide

/-- C6 amended: for every `N < W` (with `W ≥ 1`), `base_size = N / W = 0`,
so every partition except the last receives an empty range and the last
partition (worker index `W - 1`) receives the whole range `[0, N)`; an
empty partition simulates to a count of 0 for every horizon. -/
theorem degenerate_partition_behavior (N W : Nat) (hNW : N < W) (hW : 1 ≤ W) :
    (∀ i, i < W - 1 →
      rangeSize (compute_subvec_range N (N / W) i W) = 0) ∧
    compute_subvec_range N (N / W) (W - 1) W = (0, N) ∧
    (∀ D, simulate_spawning_group [] D = 0) := by
  have hb : N / W = 0 := Nat.div_eq_of_lt hNW
  refine ⟨?_, ?_, fun D => rfl⟩
  · intro i hi
    rw [rangeSize, csr_end_mid N _ hi, csr_start, hb]
    omega
  · rw [Prod.ext_iff, csr_start, csr_end_last N _ (by omega), hb]
    exact ⟨Nat.mul_zero _, rfl⟩

/-- Witness for C6 (amended) at `N = 3`, `W = 5`. -/
theorem degenerate_partition_behavior_witness :
    ((3 : Nat) < 5 ∧ 1 ≤ 5) ∧
    ((∀ i, i < 5 - 1 →
        rangeSize (compute_subvec_range 3 (3 / 5) i 5) = 0) ∧
      compute_subvec_range 3 (3 / 5) (5 - 1) 5 = (0, 3) ∧
      (∀ D, simulate_spawning_group [] D = 0)) :=
  ⟨⟨by decide, by decide⟩, degenerate_partition_behavior 3 5 (by decide) (by decide)⟩

/-- C7: simulating with horizon 0 returns exactly the population size:
`simulate_spawning e 0 = 1` for every entity, and
`simulate_spawning_group` over a population with horizon 0 returns the
population's length. -/
theorem zero_horizon_correct :
    (∀ t : Nat, simulate_spawning t 0 = 1) ∧
    (∀ l : List Nat, simulate_spawning_group l 0 = l.length) := by
  refine ⟨fun t => rfl, fun l => ?_⟩
  induction l with
  | nil => rfl
  | cons t ts ih =>
    rw [group_eq_sum_map, List.map_cons, List.sum_cons,
      show simulate_spawning t 0 = 1 from rfl, ← group_eq_sum_map, ih,
      List.length_cons]
    omega

/-- C8: the aggregator performs exactly one receive per spawned worker
(one `fish_counts` entry per worker plus the initial zero seed), treats a
failed receive as contributing 0, and reports exactly the sum of the
per-worker values so obtained; the zero seed does not change the sum. -/
theorem aggregator_correct (received : List (Option Nat)) :
    (fishCounts received).length = received.length + 1 ∧
    aggregatorTotal received = (received.map recvOrZero).sum ∧
    aggregatorTotal ((none : Option Nat) :: received)
      = aggregatorTotal received ∧
    recvOrZero none = 0 := by
  refine ⟨by simp [fishCounts], by simp [aggregatorTotal, fishCounts], ?_, rfl⟩
  simp [aggregatorTotal, fishCounts, recvOrZero]

theorem joinAll_eq_ok (joins : List Bool) (h : joins.all id = true) :
    joinAll joins = .ok () := by
  induction joins with
  | nil => rfl
  | cons b bs ih =>
    simp only [List.all_cons, Bool.and_eq_true, id] at h
    simp [joinAll, h.1, ih h.2]

theorem joinAll_fail (joins : List Bool) (h : joins.all id = false) :
    joinAll joins = .error "Child thread panicked" := by
  induction joins with
  | nil => simp [List.all_nil] at h
  | cons b bs ih =>
    by_cases hb : b = true
    · simp only [List.all_cons, hb, Bool.true_and, id] at h
      simp [joinAll, hb, ih h]
    · simp [joinAll, hb]

/-- C9: the final total is reported only after every spawned worker has
been joined (the reporting step is reached only when every join
succeeded), and an abnormal worker termination fails the join, aborting
the run with an error before any total is reported rather than being
absorbed as a zero count. -/
theorem join_before_report (joins : List Bool) (received : List (Option Nat)) :
    (joins.all id = true →
      reportTotal joins received = .ok (aggregatorTotal received)) ∧
    (joins.all id = false →
      exceptOk (reportTotal joins received) = false) := by
  constructor <;> intro h
  · rw [reportTotal, joinAll_eq_ok joins h]
  · rw [reportTotal, joinAll_fail joins h]
    rfl

/-- Witness for C9: one worker terminating abnormally aborts reporting. -/
theorem join_before_report_witness :
    ([false].all id = false) ∧
    exceptOk (reportTotal [false] [some 3]) = false :=
  ⟨by decide, (join_before_report [false] [some 3]).2 (by decide)⟩

/-- C10: `load_input_data` creates one entity per comma-separated token
that parses as an unsigned 8-bit integer (every produced timer comes from
a parsed token) and silently skips every token that does not parse; it
performs no range check restricting timers to `[0, 8]`: the tokens `9` and
`200` become entities with out-of-range timers, and malformed tokens
shrink the population without any error. -/
theorem load_input_data_behavior :
    (∀ s : List Char, ∀ x ∈ load_input_data s,
        ∃ t ∈ splitTokens s, parseU8 t = some x) ∧
    load_input_data ['9'] = [9] ∧
    load_input_data ['2', '0', '0'] = [200] ∧
    (∃ x ∈ load_input_data ['2', '0', '0'], 8 < x) ∧
    load_input_data ['1', ',', 'a', 'b', 'c', ',', '2'] = [1, 2] ∧
    (splitTokens ['1', ',', 'a', 'b', 'c', ',', '2']).length = 3 := by
  refine ⟨?_, by decide, by decide, by decide, by decide, by decide⟩
  intro s x hx
  simpa using List.mem_filterMap.mp hx

/-- Witness for C10: the timer 9 produced from the input string comes from
a token that parses to 9. -/
theorem load_input_data_behavior_witness :
    (9 ∈ load_input_data ['9']) ∧
    ∃ t ∈ splitTokens ['9'], parseU8 t = some 9 :=
  ⟨by decide, load_input_data_behavior.1 ['9'] 9 (by decide)⟩

end Day6
